import Mathlib

/-!
Verification of the Word Appendix Manager core logic.

This file gives a shallow embedding, in Lean, of the coordinator logic of
`src/core/appendix_manager.py`, the merge and cleanup logic of
`src/core/pdf_handler.py`, and the title generation of `src/gui/controller.py`,
and proves (or refutes) the specification's claims about them.

Modelling conventions:
* A file system is the list of existing file paths (`Fs`); where directories
  matter a second list holds the existing directories.
* The two external engines (the Word backend's `add_appendix_section`,
  `export_as_pdf`, and the PDF library's metadata reader) are oracles passed
  in as functions; Python exceptions become `Except` values.
* Python `dict.get` defaults are applied at the model's boundary: an input
  dictionary becomes an `AppendixData` with `path : Option String`
  (`None` ↦ `none`), `title : Option String`, and `page_count : Int`
  (absent key ↦ the Python default `0`).
-/

/-- An input record for `add_appendix` (`appendix_data` dict in the source). -/
structure AppendixData where
  path : Option String
  title : Option String
  page_count : Int
deriving Repr, DecidableEq

/-- A bookkeeping record appended to `appendices_added`
(the `appendix_info` dict built in `add_appendix`). -/
structure AppendixInfo where
  title : String
  pdf_path : String
  page_count : Int
  start_page : Int
  end_page : Int
deriving Repr, DecidableEq

/-- The file system: the set (as a list) of paths for which `Path(p).exists()`
holds. -/
abbrev Fs := List String

/-- The Word backend's `add_appendix_section(title, page_count, heading_style)`:
returns a success flag or raises (modelled as `Except`).  The heading style is
a fixed setting of the manager, so it is not a parameter of the oracle. -/
abbrev WordBackend := String → Int → Except String Bool

/-- The coordinator's mutable state: `self.appendices_added` and
`self.temp_files`. -/
structure ManagerState where
  appendices_added : List AppendixInfo
  temp_files : List String
deriving Repr, DecidableEq

/-- The freshly initialised coordinator (`AppendixManager.__init__`). -/
def ManagerState.init : ManagerState := ⟨[], []⟩

/-- `AppendixManager._calculate_start_page`: `10` (a placeholder, the true
document length is not tracked) when no appendix was added yet, otherwise the
last record's `end_page + 1`. -/
def calculateStartPage (appendices_added : List AppendixInfo) : Int :=
  match appendices_added.getLast? with
  | none => 10
  | some last => last.end_page + 1

/-- The test `if not pdf_path or not Path(pdf_path).exists()` of
`add_appendix`: true when the path is `None`, the empty string (falsy), or
names no existing file. -/
def pathInvalid (fs : Fs) (po : Option String) : Bool :=
  match po with
  | none => true
  | some p => decide (p = "" ∨ p ∉ fs)

/-- `AppendixManager.add_appendix`.  Returns the raised error or the backend's
success flag, together with the coordinator state after the call (the Python
object keeps its state when the call raises). -/
def addAppendix (backend : WordBackend) (fs : Fs) (st : ManagerState)
    (d : AppendixData) : Except String Bool × ManagerState :=
  if pathInvalid fs d.path then
    (.error "Failed to add appendix: PDF file not found", st)
  else if d.page_count ≤ 0 then
    (.error "Failed to add appendix: Invalid page count", st)
  else
    match backend (d.title.getD "Appendix") d.page_count with
    | .error e => (.error ("Failed to add appendix: " ++ e), st)
    | .ok success =>
      if success then
        (.ok true,
         ⟨st.appendices_added ++
            [⟨d.title.getD "Appendix", d.path.getD "", d.page_count,
              calculateStartPage st.appendices_added,
              calculateStartPage st.appendices_added + d.page_count - 1⟩],
          st.temp_files⟩)
      else (.ok false, st)

/-- The record that a successful `add_appendix` call appends for input `d`
given the records already present. -/
def newInfo (l : List AppendixInfo) (d : AppendixData) : AppendixInfo :=
  ⟨d.title.getD "Appendix", d.path.getD "", d.page_count,
   calculateStartPage l, calculateStartPage l + d.page_count - 1⟩

/-- `AppendixManager.add_multiple_appendices`: applies `add_appendix` to each
input in order, counts the calls that returned `True`, and swallows (logs)
every per-item exception, continuing with the next item. -/
def addMultipleAppendices (backend : WordBackend) (fs : Fs) (st : ManagerState)
    (items : List AppendixData) : Nat × ManagerState :=
  match items with
  | [] => (0, st)
  | d :: rest =>
    match addAppendix backend fs st d with
    | (Except.ok true, st2) =>
      let c := addMultipleAppendices backend fs st2 rest
      (c.1 + 1, c.2)
    | (_, st2) => addMultipleAppendices backend fs st2 rest

/-- Chained page bookkeeping starting at the start page `s`: every record's
`end_page` is `start_page + page_count - 1`, and each record starts one page
after the previous record ends. -/
def chainFrom : Int → List AppendixInfo → Prop
  | _, [] => True
  | s, a :: rest =>
    a.start_page = s ∧ a.end_page = a.start_page + a.page_count - 1 ∧
    chainFrom (a.end_page + 1) rest

/-- The next start page used by `_calculate_start_page`, relative to an
arbitrary base `s` for the empty list (recursive formulation). -/
def nextStart (s : Int) : List AppendixInfo → Int
  | [] => s
  | a :: l => nextStart (a.end_page + 1) l

theorem calculateStartPage_eq_nextStart :
    ∀ l : List AppendixInfo, calculateStartPage l = nextStart 10 l := by
  have key : ∀ (l : List AppendixInfo) (s : Int),
      (match l.getLast? with
       | none => s
       | some a => a.end_page + 1) = nextStart s l := by
    intro l
    induction l with
    | nil => intro s; rfl
    | cons a l ih =>
      intro s
      cases l with
      | nil => rfl
      | cons b l2 =>
        rw [List.getLast?_cons_cons]
        exact ih (a.end_page + 1)
  intro l
  exact key l 10

theorem chainFrom_snoc (l : List AppendixInfo) (s : Int) (h : chainFrom s l)
    (t p : String) (pc : Int) :
    chainFrom s (l ++ [⟨t, p, pc, nextStart s l, nextStart s l + pc - 1⟩]) := by
  induction l generalizing s with
  | nil => exact ⟨rfl, rfl, trivial⟩
  | cons a rest ih =>
    obtain ⟨h1, h2, h3⟩ := h
    exact ⟨h1, h2, ih (a.end_page + 1) h3⟩

/-- A successful `add_appendix` call appends exactly the record `newInfo`;
any other outcome leaves the coordinator state untouched. -/
theorem addAppendix_cases (backend : WordBackend) (fs : Fs)
    (st : ManagerState) (d : AppendixData) :
    ((addAppendix backend fs st d).1 ≠ Except.ok true ∧
      (addAppendix backend fs st d).2 = st) ∨
    ((addAppendix backend fs st d).1 = Except.ok true ∧
      (addAppendix backend fs st d).2 =
        ⟨st.appendices_added ++ [newInfo st.appendices_added d], st.temp_files⟩) := by
  unfold addAppendix
  split
  · exact Or.inl ⟨by simp, rfl⟩
  · split
    · exact Or.inl ⟨by simp, rfl⟩
    · split
      · exact Or.inl ⟨by simp, rfl⟩
      · split
        · exact Or.inr ⟨rfl, rfl⟩
        · exact Or.inl ⟨by simp, rfl⟩

theorem chainFrom_addAppendix (backend : WordBackend) (fs : Fs)
    (st : ManagerState) (d : AppendixData)
    (h : chainFrom 10 st.appendices_added) :
    chainFrom 10 (addAppendix backend fs st d).2.appendices_added := by
  rcases addAppendix_cases backend fs st d with ⟨_, h2⟩ | ⟨_, h2⟩
  · rw [h2]; exact h
  · rw [h2]
    have := chainFrom_snoc st.appendices_added 10 h (d.title.getD "Appendix")
      (d.path.getD "") d.page_count
    simpa [newInfo, calculateStartPage_eq_nextStart] using this

theorem chainFrom_addMultiple (backend : WordBackend) (fs : Fs)
    (items : List AppendixData) :
    ∀ st : ManagerState, chainFrom 10 st.appendices_added →
    chainFrom 10 (addMultipleAppendices backend fs st items).2.appendices_added := by
  induction items with
  | nil => intro st h; exact h
  | cons d rest ih =>
    intro st h
    have h1 : chainFrom 10 (addAppendix backend fs st d).2.appendices_added :=
      chainFrom_addAppendix backend fs st d h
    unfold addMultipleAppendices
    rcases hre : addAppendix backend fs st d with ⟨r1, st2⟩
    have h2 : chainFrom 10 st2.appendices_added := by rw [hre] at h1; exact h1
    match r1 with
    | Except.ok true => exact ih st2 h2
    | Except.ok false => exact ih st2 h2
    | Except.error e => exact ih st2 h2

/-- **C1.** For every sequence of `add_appendix` calls starting from a fresh
coordinator, the records accumulated in `appendices_added` satisfy
`end_page = start_page + page_count - 1`, each later record's `start_page` is
the previous record's `end_page + 1`, and the first record's `start_page` is
the fixed placeholder `10`. -/
theorem addAppendix_page_chain (backend : WordBackend) (fs : Fs)
    (items : List AppendixData) :
    chainFrom 10
      (addMultipleAppendices backend fs ManagerState.init items).2.appendices_added :=
  chainFrom_addMultiple backend fs items ManagerState.init trivial

/-- The outcome of a single `add_appendix` call, as a function of the input
alone (the success flag does not depend on the coordinator state, because the
existence check and the backend call only inspect the input). `true` means the
call returns `True`; `false` means it raises or the backend returned `False`. -/
def addOutcome (backend : WordBackend) (fs : Fs) (d : AppendixData) : Bool :=
  if pathInvalid fs d.path then false
  else if d.page_count ≤ 0 then false
  else
    match backend (d.title.getD "Appendix") d.page_count with
    | Except.ok true => true
    | _ => false

theorem addAppendix_flag_eq_outcome (backend : WordBackend) (fs : Fs)
    (st : ManagerState) (d : AppendixData) :
    ((addAppendix backend fs st d).1 = Except.ok true ↔
      addOutcome backend fs d = true) := by
  unfold addAppendix addOutcome
  split
  · simp
  · split
    · simp
    · rcases hb : backend (d.title.getD "Appendix") d.page_count with e | b
      · simp
      · cases b <;> simp

theorem addMultiple_count_eq_filter (backend : WordBackend) (fs : Fs)
    (items : List AppendixData) :
    ∀ st : ManagerState,
      (addMultipleAppendices backend fs st items).1 =
        (items.filter (fun d => addOutcome backend fs d)).length := by
  induction items with
  | nil => intro st; rfl
  | cons d rest ih =>
    intro st
    unfold addMultipleAppendices
    rcases hre : addAppendix backend fs st d with ⟨r1, st2⟩
    have hflag : (r1 = Except.ok true ↔ addOutcome backend fs d = true) := by
      have := addAppendix_flag_eq_outcome backend fs st d
      rw [hre] at this
      exact this
    match r1 with
    | Except.ok true =>
      have ho : addOutcome backend fs d = true := hflag.mp rfl
      simp [ho, ih st2]
    | Except.ok false =>
      have ho : addOutcome backend fs d = false := by
        rcases h : addOutcome backend fs d
        · rfl
        · exact absurd (hflag.mpr h) (by simp)
      simp [ho, ih st2]
    | Except.error e =>
      have ho : addOutcome backend fs d = false := by
        rcases h : addOutcome backend fs d
        · rfl
        · exact absurd (hflag.mpr h) (by simp)
      simp [ho, ih st2]

theorem length_filter_add_length_filter_not (l : List AppendixData)
    (p : AppendixData → Bool) :
    (l.filter p).length + (l.filter (fun d => ! p d)).length = l.length := by
  induction l with
  | nil => rfl
  | cons d rest ih =>
    rcases h : p d <;> simp [List.filter_cons, h, ← ih] <;> omega

/-- **C2.** `add_multiple_appendices` applies `add_appendix` to each input in
order and returns `N - M`, where `N` is the number of inputs and `M` the
number of inputs whose `add_appendix` call fails (raises or returns `False`);
a per-item failure is swallowed, never propagated (the function is total and
also returns the final coordinator state). -/
theorem addMultiple_success_count (backend : WordBackend) (fs : Fs)
    (st : ManagerState) (items : List AppendixData) :
    (addMultipleAppendices backend fs st items).1 =
      items.length -
        (items.filter (fun d => ! addOutcome backend fs d)).length ∧
    (addMultipleAppendices backend fs st items).1 =
      (items.filter (fun d => addOutcome backend fs d)).length := by
  have h1 := addMultiple_count_eq_filter backend fs items st
  have h2 := length_filter_add_length_filter_not items
    (fun d => addOutcome backend fs d)
  exact ⟨by omega, h1⟩

/-- **C6.** `add_appendix` raises (an `AppendixError`) exactly when the source
path is missing (None/empty) or names no existing file, or the page count is
not strictly positive, or the backend's insertion call raises; and it returns
a success flag only when the validation passed and the backend call completed,
the flag being the backend's. -/
theorem addAppendix_error_conditions (backend : WordBackend) (fs : Fs)
    (st : ManagerState) (d : AppendixData) :
    ((∃ e, (addAppendix backend fs st d).1 = Except.error e) ↔
      (pathInvalid fs d.path = true ∨ d.page_count ≤ 0 ∨
        ∃ e, backend (d.title.getD "Appendix") d.page_count = Except.error e)) ∧
    (∀ b, (addAppendix backend fs st d).1 = Except.ok b →
      pathInvalid fs d.path = false ∧ 0 < d.page_count ∧
        backend (d.title.getD "Appendix") d.page_count = Except.ok b) := by
  unfold addAppendix
  split
  · rename_i hp
    constructor
    · simp [hp]
    · intro b hb; simp at hb
  · rename_i hp
    split
    · rename_i hpc
      constructor
      · simp [hpc]
      · intro b hb; simp at hb
    · rename_i hpc
      rcases hb : backend (d.title.getD "Appendix") d.page_count with e | b
      · constructor
        · simp [hp, hpc]
        · intro b hcontra; simp at hcontra
      · cases b
        · constructor
          · constructor
            · rintro ⟨e, he⟩; simp at he
            · rintro (h | h | ⟨e, he⟩)
              · exact absurd h (by simpa using hp)
              · exact absurd h hpc
              · exact absurd he (by simp)
          · intro b hbb
            simp at hbb
            refine ⟨by simpa using hp, by omega, ?_⟩
            rw [hbb]
        · constructor
          · constructor
            · rintro ⟨e, he⟩; simp at he
            · rintro (h | h | ⟨e, he⟩)
              · exact absurd h (by simpa using hp)
              · exact absurd h hpc
              · exact absurd he (by simp)
          · intro b hbb
            simp at hbb
            refine ⟨by simpa using hp, by omega, ?_⟩
            rw [hbb]

/-- **C9.** A call to `add_appendix` that fails — by raising or because the
backend returned `False` — leaves `appendices_added` unchanged; a new record
is appended exactly when the call returns `True`, so the list grows by at most
one per call. -/
theorem addAppendix_state_change (backend : WordBackend) (fs : Fs)
    (st : ManagerState) (d : AppendixData) :
    ((addAppendix backend fs st d).1 ≠ Except.ok true →
      (addAppendix backend fs st d).2 = st) ∧
    ((addAppendix backend fs st d).1 = Except.ok true →
      (addAppendix backend fs st d).2.appendices_added =
        st.appendices_added ++ [newInfo st.appendices_added d]) ∧
    (addAppendix backend fs st d).2.appendices_added.length ≤
      st.appendices_added.length + 1 := by
  rcases addAppendix_cases backend fs st d with ⟨h1, h2⟩ | ⟨h1, h2⟩
  · exact ⟨fun _ => h2, fun hcontra => absurd hcontra h1, by rw [h2]; omega⟩
  · refine ⟨fun hcontra => absurd h1 hcontra, fun _ => by rw [h2], ?_⟩
    rw [h2]
    simp

/-- `AppController._generate_appendix_title`: `"numeric"` gives
`"Appendix <index+1>"`; any other numbering style uses the alphabetical
scheme, one letter (`chr(ord('A') + index)`) for the first 26 appendices and
two letters beyond that. -/
def generateAppendixTitle (numbering_style : String) (index : Nat) : String :=
  if numbering_style = "numeric" then
    "Appendix " ++ toString (index + 1)
  else
    if index < 26 then
      "Appendix " ++ String.singleton (Char.ofNat (65 + index))
    else
      "Appendix " ++ String.singleton (Char.ofNat (65 + index / 26 - 1))
        ++ String.singleton (Char.ofNat (65 + index % 26))

/-- The latin alphabet, for stating which letter the title at an index
carries. -/
def alphabet : List Char :=
  ['A', 'B', 'C', 'D', 'E', 'F', 'G', 'H', 'I', 'J', 'K', 'L', 'M',
   'N', 'O', 'P', 'Q', 'R', 'S', 'T', 'U', 'V', 'W', 'X', 'Y', 'Z']

/-- **C7.** Two appendices added in order get the titles `"Appendix A"` and
`"Appendix B"` under the alphabetical numbering style and `"Appendix 1"` and
`"Appendix 2"` under the numeric one; in general the title at zero-based index
`i` is `"Appendix "` followed by the `(i+1)`-th letter (for `i < 26`, the
single-letter range) or by the number `i + 1`. -/
theorem generateAppendixTitle_spec :
    generateAppendixTitle "alphabetical" 0 = "Appendix A" ∧
    generateAppendixTitle "alphabetical" 1 = "Appendix B" ∧
    generateAppendixTitle "numeric" 0 = "Appendix 1" ∧
    generateAppendixTitle "numeric" 1 = "Appendix 2" ∧
    (∀ i, i < 26 → generateAppendixTitle "alphabetical" i =
      "Appendix " ++ String.singleton (alphabet.getD i ' ')) ∧
    (∀ i, generateAppendixTitle "numeric" i = "Appendix " ++ toString (i + 1)) := by
  refine ⟨by decide, by decide, by decide, by decide, by decide, ?_⟩
  intro i
  simp [generateAppendixTitle]

/-- Decimal rendering of a natural number — the semantics of Python's
`str(counter)` inside the f-string that builds the de-duplicated file name. -/
def natToStr (n : Nat) : String :=
  if n = 0 then "0"
  else ((Nat.digits 10 n).reverse.map Nat.digitChar).asString

theorem digitChar_inj_lt : ∀ a, a < 10 → ∀ b, b < 10 →
    Nat.digitChar a = Nat.digitChar b → a = b := by decide

theorem map_digitChar_inj : ∀ l1 l2 : List Nat, (∀ d ∈ l1, d < 10) →
    (∀ d ∈ l2, d < 10) → l1.map Nat.digitChar = l2.map Nat.digitChar →
    l1 = l2 := by
  intro l1
  induction l1 with
  | nil =>
    intro l2 _ _ h
    cases l2 with
    | nil => rfl
    | cons b t => simp at h
  | cons a t ih =>
    intro l2 h1 h2 h
    cases l2 with
    | nil => simp at h
    | cons b t2 =>
      simp only [List.map_cons, List.cons.injEq] at h
      have ha : a < 10 := h1 a (by simp)
      have hb : b < 10 := h2 b (by simp)
      have hab : a = b := digitChar_inj_lt a ha b hb h.1
      rw [hab, ih t2 (fun d hd => h1 d (by simp [hd]))
        (fun d hd => h2 d (by simp [hd])) h.2]

theorem digits_lt_ten (n : Nat) : ∀ d ∈ (Nat.digits 10 n).reverse, d < 10 := by
  intro d hd
  rw [List.mem_reverse] at hd
  exact Nat.digits_lt_base (by omega) hd

theorem natToStr_zero_of_eq (n : Nat) (hn : n ≠ 0)
    (h : ("0" : String) = ((Nat.digits 10 n).reverse.map Nat.digitChar).asString) :
    False := by
  have hd : (['0'] : List Char) = (Nat.digits 10 n).reverse.map Nat.digitChar :=
    congrArg String.data h
  have h1 : ([0] : List Nat).map Nat.digitChar = (Nat.digits 10 n).reverse.map Nat.digitChar := hd
  have h2 : ([0] : List Nat) = (Nat.digits 10 n).reverse :=
    map_digitChar_inj _ _ (by simp) (digits_lt_ten n) h1
  have h3 : Nat.digits 10 n = [0] := by
    have := congrArg List.reverse h2
    simpa using this.symm
  have h4 : n = 0 := by
    have h5 := Nat.ofDigits_digits 10 n
    rw [h3] at h5
    simpa [Nat.ofDigits] using h5.symm
  exact hn h4

theorem natToStr_inj (m n : Nat) (h : natToStr m = natToStr n) : m = n := by
  unfold natToStr at h
  by_cases hm : m = 0 <;> by_cases hn : n = 0
  · rw [hm, hn]
  · rw [if_pos hm, if_neg hn] at h
    exact absurd (natToStr_zero_of_eq n hn h) (by simp)
  · rw [if_neg hm, if_pos hn] at h
    exact absurd (natToStr_zero_of_eq m hm h.symm) (by simp)
  · rw [if_neg hm, if_neg hn] at h
    have hd : (Nat.digits 10 m).reverse.map Nat.digitChar =
        (Nat.digits 10 n).reverse.map Nat.digitChar := congrArg String.data h
    have h2 : (Nat.digits 10 m).reverse = (Nat.digits 10 n).reverse :=
      map_digitChar_inj _ _ (digits_lt_ten m) (digits_lt_ten n) hd
    have h3 : Nat.digits 10 m = Nat.digits 10 n := by
      have := congrArg List.reverse h2
      simpa using this
    calc m = Nat.ofDigits 10 (Nat.digits 10 m) := (Nat.ofDigits_digits 10 m).symm
      _ = Nat.ofDigits 10 (Nat.digits 10 n) := by rw [h3]
      _ = n := Nat.ofDigits_digits 10 n

/-- The default output path of `_replace_blank_pages`:
`output_dir / f"{doc_name}_with_appendices.pdf"`. -/
def defaultName (dir docStem : String) : String :=
  dir ++ "/" ++ docStem ++ "_with_appendices.pdf"

/-- The de-duplicated candidate
`output_dir / f"{doc_name}_with_appendices_{counter}.pdf"`. -/
def suffixName (dir docStem : String) (counter : Nat) : String :=
  dir ++ "/" ++ docStem ++ "_with_appendices_" ++ natToStr counter ++ ".pdf"

theorem suffixName_inj (dir docStem : String) (m n : Nat)
    (h : suffixName dir docStem m = suffixName dir docStem n) : m = n := by
  unfold suffixName at h
  have hd := congrArg String.data h
  simp only [String.data_append] at hd
  have h1 := List.append_cancel_right hd
  have h2 := List.append_cancel_left h1
  exact natToStr_inj m n (String.ext h2)

theorem exists_free_suffixName (fs : List String) (dir docStem : String) :
    ∃ n, 1 ≤ n ∧ n ≤ fs.length + 1 ∧ suffixName dir docStem n ∉ fs := by
  by_contra hcon
  push_neg at hcon
  have hinj : Function.Injective (fun k : Nat => suffixName dir docStem (k + 1)) := by
    intro x y hxy
    have := suffixName_inj dir docStem (x + 1) (y + 1) hxy
    omega
  have hnodup : ((List.range (fs.length + 1)).map
      (fun k => suffixName dir docStem (k + 1))).Nodup :=
    List.Nodup.map hinj (List.nodup_range _)
  have hsub : ((List.range (fs.length + 1)).map
      (fun k => suffixName dir docStem (k + 1))).toFinset ⊆ fs.toFinset := by
    intro x hx
    rw [List.mem_toFinset] at hx ⊢
    rw [List.mem_map] at hx
    obtain ⟨k, hk, rfl⟩ := hx
    rw [List.mem_range] at hk
    exact hcon (k + 1) (by omega) (by omega)
  have hcard := Finset.card_le_card hsub
  rw [List.toFinset_card_of_nodup hnodup] at hcard
  have h2 := List.toFinset_card_le fs
  simp only [List.length_map, List.length_range] at hcard
  omega

/-- The `while output_path.exists()` loop of `_replace_blank_pages`, with
explicit fuel (`fs.length + 1` steps reach a free name, by `exists_free_suffixName`). -/
def findFree (fs : List String) (dir docStem : String) : Nat → Nat → String
  | 0, k => suffixName dir docStem k
  | fuel + 1, k =>
    if suffixName dir docStem k ∈ fs then findFree fs dir docStem fuel (k + 1)
    else suffixName dir docStem k

/-- The full output-path determination of `_replace_blank_pages` when no
explicit output path is given: the default name if no file of that name
exists, otherwise the first free `_1`, `_2`, ... candidate. -/
def uniqueOutputPath (fs : List String) (dir docStem : String) : String :=
  if defaultName dir docStem ∈ fs then findFree fs dir docStem (fs.length + 1) 1
  else defaultName dir docStem

theorem findFree_spec (fs : List String) (dir docStem : String) :
    ∀ (fuel k : Nat), (∃ j, k ≤ j ∧ j ≤ k + fuel ∧ suffixName dir docStem j ∉ fs) →
    ∃ j, k ≤ j ∧ suffixName dir docStem j ∉ fs ∧
      findFree fs dir docStem fuel k = suffixName dir docStem j ∧
      ∀ i, k ≤ i → i < j → suffixName dir docStem i ∈ fs := by
  intro fuel
  induction fuel with
  | zero =>
    rintro k ⟨j, hj1, hj2, hj3⟩
    have hjk : j = k := by omega
    subst hjk
    exact ⟨j, le_refl _, hj3, rfl, fun i hi1 hi2 => absurd hi2 (by omega)⟩
  | succ fuel ih =>
    rintro k ⟨j, hj1, hj2, hj3⟩
    by_cases hmem : suffixName dir docStem k ∈ fs
    · have hjk : k < j := by
        rcases Nat.eq_or_lt_of_le hj1 with heq | hlt
        · exact absurd hmem (heq ▸ hj3)
        · exact hlt
      obtain ⟨j2, hj21, hj22, hfind, hmin⟩ := ih (k + 1)
        ⟨j, by omega, by omega, hj3⟩
      refine ⟨j2, by omega, hj22, ?_, ?_⟩
      · simp only [findFree, if_pos hmem]
        exact hfind
      · intro i hi1 hi2
        rcases Nat.eq_or_lt_of_le hi1 with heq | hlt
        · exact heq ▸ hmem
        · exact hmin i (by omega) hi2
    · exact ⟨k, le_refl _, hmem, by simp only [findFree, if_neg hmem],
        fun i hi1 hi2 => absurd hi2 (by omega)⟩

/-- The output path the coordinator chooses by default never collides with an
existing file: it is the default name when that is free, and otherwise the
first free numbered variant (every smaller counter being taken). -/
theorem uniqueOutputPath_spec (fs : List String) (dir docStem : String) :
    uniqueOutputPath fs dir docStem ∉ fs ∧
    ((defaultName dir docStem ∉ fs ∧
        uniqueOutputPath fs dir docStem = defaultName dir docStem) ∨
     (defaultName dir docStem ∈ fs ∧ ∃ n, 1 ≤ n ∧
        uniqueOutputPath fs dir docStem = suffixName dir docStem n ∧
        ∀ m, 1 ≤ m → m < n → suffixName dir docStem m ∈ fs)) := by
  by_cases hdef : defaultName dir docStem ∈ fs
  · obtain ⟨n1, hn1, hn2, hn3⟩ := exists_free_suffixName fs dir docStem
    obtain ⟨j, hj1, hj2, hfind, hmin⟩ := findFree_spec fs dir docStem
      (fs.length + 1) 1 ⟨n1, hn1, by omega, hn3⟩
    have hout : uniqueOutputPath fs dir docStem = suffixName dir docStem j := by
      simp only [uniqueOutputPath, if_pos hdef]
      exact hfind
    exact ⟨by rw [hout]; exact hj2, Or.inr ⟨hdef, j, hj1, hout, hmin⟩⟩
  · simp only [uniqueOutputPath, if_neg hdef]
    exact ⟨hdef, Or.inl ⟨hdef, trivial⟩⟩

/-- `pathlib.Path(name).stem` for a bare file name: the name with everything
from its last dot removed; the whole name when there is no dot or when the
dot-free part would be empty (`.bashrc`-style names keep their name, as in
pathlib). -/
def stem (name : String) : String :=
  let rev := name.data.reverse
  if rev.contains '.' then
    let kept := (rev.dropWhile (fun c => c ≠ '.')).drop 1
    if kept = [] then name else kept.reverse.asString
  else name

/-- A trace of the externally visible file operations of
`_replace_blank_pages`: the chosen output path, the `shutil.copy2` calls
(source, destination) and the `merge_pdfs` calls (input list, destination). -/
structure FinalizeTrace where
  outputPath : String
  copies : List (String × String)
  mergeCalls : List (List String × String)
deriving Repr, DecidableEq

/-- The output-path determination of `_replace_blank_pages`: an explicit
output path is used as given; otherwise the document's stem names a file in
`Path.home() / "Documents"`, de-duplicated by numeric suffix. -/
def chooseOutputPath (fs : Fs) (home docName : String) : Option String → String
  | some o => o
  | none => uniqueOutputPath fs (home ++ "/Documents") (stem docName)

/-- `AppendixManager._replace_blank_pages`: copy the exported Word PDF to the
output path, then — exactly when at least one appendix was added — merge the
exported PDF followed by every appendix's source PDF (in insertion order) into
the same output path. -/
def replaceBlankPages (st : ManagerState) (fs : Fs) (home docName : String)
    (word_pdf_path : String) (outOpt : Option String) : FinalizeTrace :=
  ⟨chooseOutputPath fs home docName outOpt,
   [(word_pdf_path, chooseOutputPath fs home docName outOpt)],
   if st.appendices_added = [] then []
   else [(word_pdf_path :: st.appendices_added.map (fun a => a.pdf_path),
          chooseOutputPath fs home docName outOpt)]⟩

/-- `AppendixManager.create_final_pdf`: export the Word document to
`<temp dir>/word_document.pdf` (raising a wrapped `AppendixError` when the
export fails), then run `_replace_blank_pages`; the export oracle `exportOk`
stands for the Word backend's `export_as_pdf` outcome. -/
def createFinalPdf (exportOk : Bool) (st : ManagerState) (fs : Fs)
    (home docName tempDir : String) (outOpt : Option String) :
    Except String FinalizeTrace :=
  if exportOk then
    Except.ok (replaceBlankPages st fs home docName
      (tempDir ++ "/word_document.pdf") outOpt)
  else
    Except.error "Failed to create final PDF: Failed to export Word document to PDF"

/-- **C5.** A successful `create_final_pdf` copies the exported document PDF
to the output path, and invokes the PDF backend's merge exactly when at least
one appendix was added, on the exported PDF followed by each added appendix's
source path in insertion order, writing to the same output path. -/
theorem createFinalPdf_copy_then_merge (st : ManagerState) (fs : Fs)
    (home docName tempDir : String) (outOpt : Option String) :
    ∃ tr, createFinalPdf true st fs home docName tempDir outOpt = Except.ok tr ∧
      tr.copies = [(tempDir ++ "/word_document.pdf", tr.outputPath)] ∧
      (st.appendices_added = [] → tr.mergeCalls = []) ∧
      (st.appendices_added ≠ [] →
        tr.mergeCalls = [((tempDir ++ "/word_document.pdf") ::
          st.appendices_added.map (fun a => a.pdf_path), tr.outputPath)]) := by
  refine ⟨_, rfl, rfl, ?_, ?_⟩ <;> intro h <;>
    simp [replaceBlankPages, h]

/-- The default output path as the specification's claim describes it: a
sibling of the source document (a file in the source document's own
directory) named `<stem>_with_appendices.pdf`. -/
def specSiblingDefaultPath (sourceDir docName : String) : String :=
  sourceDir ++ "/" ++ stem docName ++ "_with_appendices.pdf"

/-- **C3 counterexample.** Concrete run: the source document is
`/data/report.docx`, the user's home is `/home/user`, no file exists yet.
`create_final_pdf` without an explicit output path picks
`/home/user/Documents/report_with_appendices.pdf` — the user's Documents
folder — which is not the sibling path `/data/report_with_appendices.pdf`
the claim prescribes. -/
theorem createFinalPdf_default_not_sibling :
    (∃ tr, createFinalPdf true ManagerState.init [] "/home/user" "report.docx"
        "/tmp/wa" none = Except.ok tr ∧
      tr.outputPath = "/home/user/Documents/report_with_appendices.pdf") ∧
    "/home/user/Documents/report_with_appendices.pdf" ≠
      specSiblingDefaultPath "/data" "report.docx" := by
  exact ⟨⟨_, rfl, by decide⟩, by decide⟩

/-- **C3 (amended).** When `create_final_pdf` is called without an explicit
output path, the default output path is
`<home>/Documents/<stem>_with_appendices.pdf` (the user's Documents folder,
regardless of where the source document lives), and when a file already
exists at the chosen name the coordinator takes the first free name with an
incrementing numeric suffix `_1`, `_2`, ...; the chosen path never collides
with an existing file. -/
theorem createFinalPdf_default_path_spec (st : ManagerState) (fs : Fs)
    (home docName tempDir : String) :
    ∃ tr, createFinalPdf true st fs home docName tempDir none = Except.ok tr ∧
      tr.outputPath ∉ fs ∧
      ((defaultName (home ++ "/Documents") (stem docName) ∉ fs ∧
         tr.outputPath = defaultName (home ++ "/Documents") (stem docName)) ∨
       (defaultName (home ++ "/Documents") (stem docName) ∈ fs ∧
        ∃ n, 1 ≤ n ∧
          tr.outputPath = suffixName (home ++ "/Documents") (stem docName) n ∧
          ∀ m, 1 ≤ m → m < n →
            suffixName (home ++ "/Documents") (stem docName) m ∈ fs)) := by
  exact ⟨_, rfl, uniqueOutputPath_spec fs (home ++ "/Documents") (stem docName)⟩

/-- The error raised by `merge_pdfs`: the bare `PDFError` for an empty input
list (raised before any backend call), or a `PDFError` wrapping the message of
an exception out of the backend — in particular the `PDFNotFoundError` for a
missing input. -/
inductive PdfMergeError where
  | emptyList : PdfMergeError
  | wrapped : String → PdfMergeError
deriving Repr, DecidableEq

/-- The input loop of `PDFHandler._merge_pdfs_pypdf` (the PyMuPDF variant
checks existence the same way): each input is appended to the merger, raising
`PDFNotFoundError` at the first path that does not exist. -/
def mergeLoop (fs : Fs) : List String → Except String Unit
  | [] => Except.ok ()
  | p :: rest =>
    if p ∈ fs then mergeLoop fs rest
    else Except.error ("PDF file not found: " ++ p)

/-- `PDFHandler._merge_pdfs_pypdf`: when the loop succeeds, the merged output
is written to `output_path` and `True` is returned. -/
def mergePdfsBackend (fs : Fs) (pdf_list : List String) (output_path : String) :
    Except String (Bool × Fs) :=
  match mergeLoop fs pdf_list with
  | Except.error e => Except.error e
  | Except.ok _ => Except.ok (true, output_path :: fs)

/-- `PDFHandler.merge_pdfs`: `PDFError("No PDF files to merge")` for an empty
list; any backend exception is wrapped in
`PDFError("Failed to merge PDFs: ...")`. -/
def mergePdfs (fs : Fs) (pdf_list : List String) (output_path : String) :
    Except PdfMergeError (Bool × Fs) :=
  if pdf_list = [] then Except.error PdfMergeError.emptyList
  else
    match mergePdfsBackend fs pdf_list output_path with
    | Except.error e => Except.error (PdfMergeError.wrapped e)
    | Except.ok r => Except.ok r

theorem mergeLoop_error_of_missing (fs : Fs) :
    ∀ l : List String, (∃ p ∈ l, p ∉ fs) →
    ∃ p ∈ l, p ∉ fs ∧ mergeLoop fs l = Except.error ("PDF file not found: " ++ p) := by
  intro l
  induction l with
  | nil => rintro ⟨p, hp, _⟩; exact absurd hp (by simp)
  | cons q rest ih =>
    rintro ⟨p, hp, hpf⟩
    by_cases hq : q ∈ fs
    · have hpq : p ≠ q := fun h => hpf (h ▸ hq)
      have hprest : p ∈ rest := by
        rcases List.mem_cons.mp hp with h | h
        · exact absurd h hpq
        · exact h
      obtain ⟨p2, hp2, hp2f, hp2e⟩ := ih ⟨p, hprest, hpf⟩
      exact ⟨p2, List.mem_cons_of_mem q hp2, hp2f, by
        simp only [mergeLoop, if_pos hq]; exact hp2e⟩
    · exact ⟨q, List.mem_cons_self q rest, hq, by
        simp only [mergeLoop, if_neg hq]⟩

theorem mergeLoop_ok_all_exist (fs : Fs) :
    ∀ l : List String, ∀ u, mergeLoop fs l = Except.ok u → ∀ p ∈ l, p ∈ fs := by
  intro l
  induction l with
  | nil => intro u _ p hp; exact absurd hp (by simp)
  | cons q rest ih =>
    intro u h p hp
    by_cases hq : q ∈ fs
    · simp only [mergeLoop, if_pos hq] at h
      rcases List.mem_cons.mp hp with hpq | hpr
      · exact hpq ▸ hq
      · exact ih u h p hpr
    · simp only [mergeLoop, if_neg hq] at h
      simp at h

/-- **C10.** `merge_pdfs` raises a `PDFError` on an empty input list; when an
input is missing it raises a `PDFError` wrapping the `PDFNotFoundError` for a
missing input; and it returns `True` only when every input exists, in which
case the merged output has been written to the output path. -/
theorem mergePdfs_spec (fs : Fs) (pdf_list : List String) (output_path : String) :
    (pdf_list = [] →
      mergePdfs fs pdf_list output_path = Except.error PdfMergeError.emptyList) ∧
    ((∃ p ∈ pdf_list, p ∉ fs) → ∃ p ∈ pdf_list, p ∉ fs ∧
      mergePdfs fs pdf_list output_path =
        Except.error (PdfMergeError.wrapped ("PDF file not found: " ++ p))) ∧
    (∀ b fs2, mergePdfs fs pdf_list output_path = Except.ok (b, fs2) →
      b = true ∧ (∀ p ∈ pdf_list, p ∈ fs) ∧ output_path ∈ fs2) := by
  refine ⟨fun h => by simp [mergePdfs, h], ?_, ?_⟩
  · intro hex
    have hl : pdf_list ≠ [] := by
      rintro rfl
      obtain ⟨p, hp, _⟩ := hex
      exact absurd hp (by simp)
    obtain ⟨p, hp, hpf, hpe⟩ := mergeLoop_error_of_missing fs pdf_list hex
    exact ⟨p, hp, hpf, by simp [mergePdfs, hl, mergePdfsBackend, hpe]⟩
  · intro b fs2 h
    by_cases hl : pdf_list = []
    · simp [mergePdfs, hl] at h
    · simp only [mergePdfs, if_neg hl] at h
      rcases hml : mergeLoop fs pdf_list with e | u
      · rw [mergePdfsBackend, hml] at h
        simp at h
      · rw [mergePdfsBackend, hml] at h
        simp only [Except.ok.injEq, Prod.mk.injEq] at h
        obtain ⟨hb, hfs⟩ := h
        exact ⟨hb.symm, mergeLoop_ok_all_exist fs pdf_list u hml,
          by rw [← hfs]; exact List.mem_cons_self _ _⟩

/-- A file system with directories: the existing files and the existing
directories. -/
structure DirFs where
  files : List String
  dirs : List String
deriving Repr, DecidableEq

/-- The PDF handler's temp bookkeeping: `self.temp_dir` and
`self._temp_files`. -/
structure PdfHandlerState where
  temp_dir : Option String
  temp_files : List String
deriving Repr, DecidableEq

/-- One `if Path(f).exists(): Path(f).unlink()` attempt inside its
`try/except`: the file is deleted when it exists and the OS permits
(oracle `delOk`); a failing deletion raises, is caught, logged and
swallowed, leaving the file in place. -/
def tryUnlink (delOk : String → Bool) (fs : DirFs) (f : String) : DirFs :=
  if f ∈ fs.files ∧ delOk f then ⟨fs.files.filter (fun x => x ≠ f), fs.dirs⟩
  else fs

def unlinkAll (delOk : String → Bool) (fs : DirFs) : List String → DirFs
  | [] => fs
  | f :: rest => unlinkAll delOk (tryUnlink delOk fs f) rest

/-- `shutil.rmtree(self.temp_dir, ignore_errors=True)` guarded by
`if self.temp_dir and Path(self.temp_dir).exists()`: removes the directory
when the OS permits, and never raises. -/
def tryRmtree (delOk : String → Bool) (fs : DirFs) (d : String) : DirFs :=
  if d ∈ fs.dirs ∧ delOk d then ⟨fs.files, fs.dirs.filter (fun x => x ≠ d)⟩
  else fs

/-- `PDFHandler.cleanup_temp_files`: best-effort deletion of every tracked
temp file, removal of the temp directory, then `_temp_files.clear()` and
`temp_dir = None`. -/
def pdfCleanupTempFiles (delOk : String → Bool) (fs : DirFs)
    (pst : PdfHandlerState) : DirFs × PdfHandlerState :=
  let fs1 := unlinkAll delOk fs pst.temp_files
  let fs2 := match pst.temp_dir with
    | none => fs1
    | some d => tryRmtree delOk fs1 d
  (fs2, ⟨none, []⟩)

/-- `AppendixManager.cleanup_temp_files`: best-effort deletion of the
coordinator's own temp files, `temp_files.clear()`, then the PDF handler's
cleanup. -/
def managerCleanupTempFiles (delOk : String → Bool) (fs : DirFs)
    (mst : ManagerState) (pst : PdfHandlerState) :
    DirFs × ManagerState × PdfHandlerState :=
  let fs1 := unlinkAll delOk fs mst.temp_files
  let r := pdfCleanupTempFiles delOk fs1 pst
  (r.1, ⟨mst.appendices_added, []⟩, r.2)

theorem tryUnlink_not_mem (delOk : String → Bool) (fs : DirFs) (f x : String)
    (h : x ∉ fs.files) : x ∉ (tryUnlink delOk fs f).files := by
  unfold tryUnlink
  split
  · simp only [List.mem_filter]
    rintro ⟨hx, _⟩
    exact h hx
  · exact h

theorem unlinkAll_not_mem (delOk : String → Bool) :
    ∀ (l : List String) (fs : DirFs) (x : String), x ∉ fs.files →
      x ∉ (unlinkAll delOk fs l).files := by
  intro l
  induction l with
  | nil => intro fs x h; exact h
  | cons f rest ih =>
    intro fs x h
    exact ih (tryUnlink delOk fs f) x (tryUnlink_not_mem delOk fs f x h)

theorem tryUnlink_removes (delOk : String → Bool) (fs : DirFs) (f : String)
    (h : delOk f = true) : f ∉ (tryUnlink delOk fs f).files := by
  unfold tryUnlink
  split
  · simp
  · rename_i hcon
    intro hmem
    exact hcon ⟨hmem, h⟩

theorem unlinkAll_removes (delOk : String → Bool) :
    ∀ (l : List String) (fs : DirFs) (x : String), x ∈ l → delOk x = true →
      x ∉ (unlinkAll delOk fs l).files := by
  intro l
  induction l with
  | nil => intro fs x h; exact absurd h (by simp)
  | cons f rest ih =>
    intro fs x hx hdel
    show x ∉ (unlinkAll delOk (tryUnlink delOk fs f) rest).files
    rcases List.mem_cons.mp hx with hxf | hxr
    · apply unlinkAll_not_mem
      rw [hxf]
      exact tryUnlink_removes delOk fs f (hxf ▸ hdel)
    · exact ih (tryUnlink delOk fs f) x hxr hdel

theorem unlinkAll_dirs (delOk : String → Bool) :
    ∀ (l : List String) (fs : DirFs), (unlinkAll delOk fs l).dirs = fs.dirs := by
  intro l
  induction l with
  | nil => intro fs; rfl
  | cons f rest ih =>
    intro fs
    rw [unlinkAll, ih]
    unfold tryUnlink
    split <;> rfl

theorem tryRmtree_files (delOk : String → Bool) (fs : DirFs) (d : String) :
    (tryRmtree delOk fs d).files = fs.files := by
  unfold tryRmtree
  split <;> rfl

theorem tryRmtree_removes (delOk : String → Bool) (fs : DirFs) (d : String)
    (h : delOk d = true) : d ∉ (tryRmtree delOk fs d).dirs := by
  unfold tryRmtree
  split
  · simp
  · rename_i hcon
    intro hmem
    exact hcon ⟨hmem, h⟩

/-- **C8.** After `cleanup_temp_files` the coordinator's `temp_files` list and
the PDF handler's `_temp_files` list are empty and `temp_dir` is `None`, for
every deletion oracle — the cleanup completes (never raises) even when
individual deletions fail; every tracked file whose deletion the OS permits is
gone, so when all deletions succeed no tracked file remains; and the temp
directory is removed whenever its removal succeeds (`rmtree` runs with
`ignore_errors`). -/
theorem cleanupTempFiles_spec (delOk : String → Bool) (fs : DirFs)
    (mst : ManagerState) (pst : PdfHandlerState) :
    (managerCleanupTempFiles delOk fs mst pst).2.1.temp_files = [] ∧
    (managerCleanupTempFiles delOk fs mst pst).2.2.temp_files = [] ∧
    (managerCleanupTempFiles delOk fs mst pst).2.2.temp_dir = none ∧
    ((∀ f ∈ mst.temp_files ++ pst.temp_files, delOk f = true) →
      ∀ f ∈ mst.temp_files ++ pst.temp_files,
        f ∉ (managerCleanupTempFiles delOk fs mst pst).1.files) ∧
    (∀ d, pst.temp_dir = some d → delOk d = true →
      d ∉ (managerCleanupTempFiles delOk fs mst pst).1.dirs) := by
  refine ⟨rfl, rfl, rfl, ?_, ?_⟩
  · intro hall f hf
    have hdel : delOk f = true := hall f hf
    have hfiles : (managerCleanupTempFiles delOk fs mst pst).1.files =
        (match pst.temp_dir with
         | none => unlinkAll delOk (unlinkAll delOk fs mst.temp_files) pst.temp_files
         | some d => tryRmtree delOk
             (unlinkAll delOk (unlinkAll delOk fs mst.temp_files) pst.temp_files) d).files := rfl
    rw [hfiles]
    have key : f ∉ (unlinkAll delOk
        (unlinkAll delOk fs mst.temp_files) pst.temp_files).files := by
      rcases List.mem_append.mp hf with hm | hp
      · exact unlinkAll_not_mem delOk pst.temp_files _ f
          (unlinkAll_removes delOk mst.temp_files fs f hm hdel)
      · exact unlinkAll_removes delOk pst.temp_files _ f hp hdel
    cases pst.temp_dir with
    | none => exact key
    | some d => rw [tryRmtree_files]; exact key
  · intro d hd hdel
    have hdirs : (managerCleanupTempFiles delOk fs mst pst).1.dirs =
        (match pst.temp_dir with
         | none => unlinkAll delOk (unlinkAll delOk fs mst.temp_files) pst.temp_files
         | some d2 => tryRmtree delOk
             (unlinkAll delOk (unlinkAll delOk fs mst.temp_files) pst.temp_files) d2).dirs := rfl
    rw [hdirs, hd]
    exact tryRmtree_removes delOk _ d hdel

/-- What the PDF library reports about a readable PDF (the fields of
`_get_pdf_info` that `validate_pdf_file` inspects). -/
structure PdfMeta where
  pageCount : Nat
  encrypted : Bool
deriving Repr, DecidableEq

/-- A file system for validation: the existing files, each file's size in
megabytes (`st_size / (1024*1024)`, modelled as an exact rational), and the
PDF library's metadata reader, which raises on a corrupted file. -/
structure PdfFs where
  files : List String
  sizeMB : String → ℚ
  meta : String → Except String PdfMeta

/-- The dictionary `validate_pdf_file` returns (only the fields the
coordinator reads). -/
structure ValidationResult where
  valid : Bool
  size_mb : ℚ
  page_count : Nat
  encrypted : Bool
  warnings : List String
deriving Repr, DecidableEq

/-- `PDFHandler.validate_pdf_file`: raises `PDFNotFoundError` for a missing
file and `PDFCorruptedError` when the library cannot read it; otherwise
returns a result whose `valid` field is always `True`, with one warning for a
size above 50 MB, one for more than 1000 pages and one for encryption (the
oversize check against the configured maximum only logs here; numeric
renderings inside messages are elided). -/
def validatePdfFile (pfs : PdfFs) (p : String) : Except String ValidationResult :=
  if p ∉ pfs.files then Except.error ("PDF file not found: " ++ p)
  else
    match pfs.meta p with
    | Except.error e =>
      Except.error ("PDF file is corrupted or unreadable: " ++ p ++ " (" ++ e ++ ")")
    | Except.ok m =>
      Except.ok ⟨true, pfs.sizeMB p, m.pageCount, m.encrypted,
        (if pfs.sizeMB p > 50 then ["Large file size"] else []) ++
        (if m.pageCount > 1000 then ["Many pages"] else []) ++
        (if m.encrypted then ["PDF is encrypted"] else [])⟩

/-- The error/warning lines `validate_appendices` collects for one input
tagged `tag` (= `"Appendix <i+1>"`): a missing/empty path or a missing file
short-circuits with one line; an exception from `validate_pdf_file` becomes
one line; otherwise one line per failed check plus the backend warnings. -/
def validateItem (pfs : PdfFs) (maxSizeMB : ℚ) (tag : String)
    (d : AppendixData) : List String :=
  match d.path with
  | none => [tag ++ ": No PDF file specified"]
  | some p =>
    if p = "" then [tag ++ ": No PDF file specified"]
    else if p ∉ pfs.files then [tag ++ ": PDF file not found: " ++ p]
    else
      match validatePdfFile pfs p with
      | Except.error e => [tag ++ ": PDF validation failed: " ++ e]
      | Except.ok info =>
        (if info.valid then [] else [tag ++ ": Invalid PDF file"]) ++
        (if info.page_count = 0 then [tag ++ ": PDF has no pages"] else []) ++
        (if info.size_mb > maxSizeMB then [tag ++ ": File too large"] else []) ++
        info.warnings.map (fun w => tag ++ ": " ++ w)

/-- The `for i, appendix in enumerate(appendices_data)` loop of
`validate_appendices`, with `i` explicit. -/
def validateAppendicesFrom (pfs : PdfFs) (maxSizeMB : ℚ) :
    Nat → List AppendixData → List String
  | _, [] => []
  | i, d :: rest =>
    validateItem pfs maxSizeMB ("Appendix " ++ natToStr (i + 1)) d ++
      validateAppendicesFrom pfs maxSizeMB (i + 1) rest

/-- `AppendixManager.validate_appendices`. -/
def validateAppendices (pfs : PdfFs) (maxSizeMB : ℚ)
    (items : List AppendixData) : List String :=
  validateAppendicesFrom pfs maxSizeMB 0 items

/-- An input whose readable PDF reports no pages. -/
def itemNoPages (pfs : PdfFs) (d : AppendixData) : Bool :=
  match d.path with
  | none => false
  | some p =>
    if p = "" then false
    else if p ∉ pfs.files then false
    else
      match pfs.meta p with
      | Except.error _ => false
      | Except.ok m => decide (m.pageCount = 0)

/-- An input whose readable PDF exceeds the configured size ceiling. -/
def itemOversize (pfs : PdfFs) (maxSizeMB : ℚ) (d : AppendixData) : Bool :=
  match d.path with
  | none => false
  | some p =>
    if p = "" then false
    else if p ∉ pfs.files then false
    else
      match pfs.meta p with
      | Except.error _ => false
      | Except.ok _ => decide (pfs.sizeMB p > maxSizeMB)

/-- The number of warnings the backend reports for an input (0 when the input
never reaches a successful `validate_pdf_file`). -/
def itemWarningCount (pfs : PdfFs) (d : AppendixData) : Nat :=
  match d.path with
  | none => 0
  | some p =>
    if p = "" then 0
    else if p ∉ pfs.files then 0
    else
      match validatePdfFile pfs p with
      | Except.error _ => 0
      | Except.ok info => info.warnings.length

theorem length_ite_singleton {α : Type} (c : Prop) [Decidable c] (a : α) :
    (if c then [a] else []).length = if c then 1 else 0 := by
  split <;> rfl

theorem validateItem_length (pfs : PdfFs) (maxSizeMB : ℚ) (tag : String)
    (d : AppendixData)
    (hok : ∀ p, d.path = some p → p ∈ pfs.files →
      ∃ m, pfs.meta p = Except.ok m) :
    (validateItem pfs maxSizeMB tag d).length =
      (if pathInvalid pfs.files d.path then 1 else 0) +
      (if itemNoPages pfs d then 1 else 0) +
      (if itemOversize pfs maxSizeMB d then 1 else 0) +
      itemWarningCount pfs d := by
  match hpath : d.path with
  | none => simp [validateItem, pathInvalid, itemNoPages, itemOversize,
      itemWarningCount, hpath]
  | some p =>
    by_cases hne : p = ""
    · simp [validateItem, pathInvalid, itemNoPages, itemOversize,
        itemWarningCount, hpath, hne]
    · by_cases hmem : p ∈ pfs.files
      · obtain ⟨m, hm⟩ := hok p hpath hmem
        simp only [validateItem, validatePdfFile, itemNoPages, itemOversize,
          itemWarningCount, pathInvalid, hpath, hne, hm,
          if_neg (not_not_intro hmem), if_neg hne, ite_false, ite_true,
          List.length_append, List.length_map, length_ite_singleton]
        simp [hmem, hne, length_ite_singleton]
      · simp [validateItem, pathInvalid, itemNoPages, itemOversize,
          itemWarningCount, hpath, hne, hmem]

theorem validateAppendicesFrom_counts (pfs : PdfFs) (maxSizeMB : ℚ) :
    ∀ items : List AppendixData,
      (∀ d ∈ items, ∀ p, d.path = some p → p ∈ pfs.files →
        ∃ m, pfs.meta p = Except.ok m) →
      ∀ i : Nat,
      (validateAppendicesFrom pfs maxSizeMB i items).length =
        (items.filter (fun d => pathInvalid pfs.files d.path)).length +
        (items.filter (fun d => itemNoPages pfs d)).length +
        (items.filter (fun d => itemOversize pfs maxSizeMB d)).length +
        (items.map (fun d => itemWarningCount pfs d)).sum := by
  intro items
  induction items with
  | nil => intro _ i; rfl
  | cons d rest ih =>
    intro hok i
    have hitem := validateItem_length pfs maxSizeMB
      ("Appendix " ++ natToStr (i + 1)) d
      (fun p hp hm => hok d (by simp) p hp hm)
    have hrest := ih (fun d2 hd2 => hok d2 (by simp [hd2])) (i + 1)
    simp only [validateAppendicesFrom, List.length_append, hitem, hrest,
      List.filter_cons, List.map_cons, List.sum_cons]
    split_ifs <;> simp <;> omega

/-- **C4.** When the PDF library can read every listed file that exists,
`validate_appendices` returns exactly one error entry per missing input
(unspecified/empty path or nonexistent file), one per input whose PDF reports
a non-positive page count, one per input whose size exceeds the configured
maximum, plus one line per backend-reported warning string; and it never
throws — it is a total function into the list of problems. -/
theorem validateAppendices_counts (pfs : PdfFs) (maxSizeMB : ℚ)
    (items : List AppendixData)
    (hok : ∀ d ∈ items, ∀ p, d.path = some p → p ∈ pfs.files →
      ∃ m, pfs.meta p = Except.ok m) :
    (validateAppendices pfs maxSizeMB items).length =
      (items.filter (fun d => pathInvalid pfs.files d.path)).length +
      (items.filter (fun d => itemNoPages pfs d)).length +
      (items.filter (fun d => itemOversize pfs maxSizeMB d)).length +
      (items.map (fun d => itemWarningCount pfs d)).sum :=
  validateAppendicesFrom_counts pfs maxSizeMB items hok 0

/-- A concrete validation scenario: one readable 3-page, 1 MB PDF on disk and
one input with no path. -/
def witnessPdfFs : PdfFs :=
  ⟨["/docs/a.pdf"], fun _ => 1, fun _ => Except.ok ⟨3, false⟩⟩

def witnessItems : List AppendixData :=
  [⟨some "/docs/a.pdf", some "Appendix A", 3⟩, ⟨none, none, 0⟩]

theorem validateAppendices_counts_witness :
    (validateAppendices witnessPdfFs 200 witnessItems).length =
      (witnessItems.filter
        (fun d => pathInvalid witnessPdfFs.files d.path)).length +
      (witnessItems.filter (fun d => itemNoPages witnessPdfFs d)).length +
      (witnessItems.filter
        (fun d => itemOversize witnessPdfFs 200 d)).length +
      (witnessItems.map (fun d => itemWarningCount witnessPdfFs d)).sum ∧
    (validateAppendices witnessPdfFs 200 witnessItems).length = 1 :=
  ⟨validateAppendices_counts witnessPdfFs 200 witnessItems
    (fun _ _ _ _ _ => ⟨⟨3, false⟩, rfl⟩), by decide⟩
